import Mathlib

/-!
Verification of the MoinMoin-to-Markdown translator (`parseMoinToMarkdown.py`).

This file shallowly embeds the parts of the translator that the checked
claims are about:

* path resolution (`InternalPagePath.getWikiRootPath`, `InternalPagePath.compose`,
  `InternalLink.compose`),
* the `Date`/`DateTime` and `MailTo` macro renderers,
* interwiki-link resolution over the static `interWikiMap`,
* the creole fast-fail check at the top of `translate`,
* the raw-mode (HTML) toggle renderers for bold / italic / underline,
* the list engine (`LeadingSpaces.trackIndent`, `MoinListItem.compose`,
  `MoinList.compose`),
* the table feasibility analyzer (`TableRow.rowIsHeader`,
  `Table.needsHTMLRendering`),
* the `WikiWord` grammar regex.

Python strings are modelled as Lean `String`; optional pypeg attributes
(`hasattr(self, "x")`) are modelled as `Option`; Python exceptions that the
caller treats as translation failure are modelled as `Except String`.
Character classes follow the ASCII fragment of Python's `re` semantics
(source inputs are ASCII).
-/

namespace WikiMigration

-- ===========================================================================
-- String helpers mirroring Python primitives
-- ===========================================================================

/-- Python `s.lower()` on the ASCII strings this translator handles:
lower-case every character. -/
def pyLower (s : String) : String := String.mk (s.data.map Char.toLower)

/-- Python `s.count("../")`: the number of non-overlapping occurrences of
`../`, scanned left to right (specialized to the only pattern the source
counts). -/
def countDotDotSlash : List Char → Nat
  | '.' :: '.' :: '/' :: rest => countDotDotSlash rest + 1
  | _ :: rest => countDotDotSlash rest
  | [] => 0

/-- Python `s.replace("../", "")`: drop every non-overlapping occurrence of
`../`, scanned left to right (specialized to the only replacement the
source performs on paths). -/
def removeDotDotSlash : List Char → List Char
  | '.' :: '.' :: '/' :: rest => removeDotDotSlash rest
  | c :: rest => c :: removeDotDotSlash rest
  | [] => []

-- ===========================================================================
-- Path resolution: `InternalPagePath` (src/parseMoinToMarkdown.py:655-773)
-- ===========================================================================

/-- Global `wikiRootParts` (src 3648-3650): `wikiRoot.split("/")` with the
first element (empty, since roots are written like `/src`) popped. -/
def wikiRootParts (wikiRoot : String) : List (List Char) :=
  (List.splitOn '/' wikiRoot.data).drop 1

/-- Embeds `InternalPagePath.isSubPageLink` (src 704-710): Python tests
`pagePart[0] == "/"`.  (On an empty page part Python would raise; the
grammar guarantees a non-empty page part, and the model returns `false`
there.) -/
def isSubPageLink (pagePart : String) : Bool :=
  match pagePart.data with
  | '/' :: _ => true
  | _ => false

/-- Embeds `InternalPagePath.isPageRelativeLink` (src 712-719): Python tests
`pagePart[0:3] == "../"`. -/
def isPageRelativeLink (pagePart : String) : Bool :=
  match pagePart.data with
  | '.' :: '.' :: '/' :: _ => true
  | _ => false

/-- Embeds `InternalPagePath.getWikiRootPath` (src 742-773).  `pagePart = none`
models a path node without a `pagePart` attribute (an anchor-only link).

The parent-relative branch computes `peelBack = -count("../") + 1` and takes
the Python slice `wikiRootParts[0:peelBack]`; for `peelBack < 0` that slice
drops the last `count - 1` elements, which is `wrParts.take (wrParts.length -
(n - 1))` here.  When `peelBack == 0` (exactly one `../`) the code keeps the
whole `wikiRoot` unchanged.  The root-relative branch reads
`wikiRootParts[0]`; with a conventional root such as `/src` that list is
non-empty (`headD []` models the defined cases). -/
def getWikiRootPath (wikiRoot : String) (pagePart : Option String) : String :=
  let wrParts := wikiRootParts wikiRoot
  match pagePart with
  | none => wikiRoot
  | some pp =>
    if isSubPageLink pp then
      wikiRoot ++ pp
    else if isPageRelativeLink pp then
      let n := countDotDotSlash pp.data
      let peeledBackRoot :=
        if n != 1 then
          "/" ++ String.mk (List.intercalate ['/'] (wrParts.take (wrParts.length - (n - 1))))
        else wikiRoot
      peeledBackRoot ++ "/" ++ String.mk (removeDotDotSlash pp.data)
    else
      "/" ++ String.mk (wrParts.headD []) ++ "/" ++ pp

/-- ASCII fragment of Python regex `\w` (word character). -/
def isWordCharPy (c : Char) : Bool := c.isAlpha || c.isDigit || c == '_'

/-- Anchor conversion inside `InternalPagePath.compose` (src 695-698):
lower-case, drop everything but word characters, spaces and hyphens
(`re.sub('[^\w \-]', '', anchor)`), then turn spaces into hyphens. -/
def moinAnchorToMd (anchor : String) : String :=
  let lowered := anchor.data.map Char.toLower
  let stripped := lowered.filter (fun c => isWordCharPy c || c == ' ' || c == '-')
  String.mk (stripped.map (fun c => if c == ' ' then '-' else c))

/-- Embeds `InternalPagePath.compose` (src 689-701): wiki-root path plus
`/index.md`, plus the converted anchor when present. -/
def internalPagePathCompose (wikiRoot : String) (pagePart anchorPart : Option String) : String :=
  let out := getWikiRootPath wikiRoot pagePart ++ "/index.md"
  match anchorPart with
  | none => out
  | some a => out ++ "#" ++ moinAnchorToMd a

/-- Embeds `InternalLink.compose` (src 1843-1856).  With link text the output is
`[linkText](composedPath)`; without it the raw page part is used as the
displayed text.  (If both `linkText` and `pagePart` are missing Python
raises `AttributeError` from the handler; `getD ""` models only the defined
cases, which the theorems stay within.) -/
def internalLinkCompose (wikiRoot : String) (pagePart anchorPart linkText : Option String) : String :=
  match linkText with
  | some t => "[" ++ t ++ "](" ++ internalPagePathCompose wikiRoot pagePart anchorPart ++ ")"
  | none =>
    "[" ++ pagePart.getD "" ++ "](" ++ internalPagePathCompose wikiRoot pagePart anchorPart ++ ")"

-- ===========================================================================
-- Date and MailTo renderers (src 1392-1431, 1473-1492)
-- ===========================================================================

/-- Embeds `DateMacro.compose` (src 1487-1492): `self.datetime[0:10]`. -/
def dateCompose (datetime : String) : String := String.mk (datetime.data.take 10)

/-- Embeds `MailToMacro.compose` (src 1413-1422): parentheses around the display
text (the optional to-text, else the address), then square brackets around
the mailto URL. -/
def mailToCompose (emailAddress : String) (toText : Option String) : String :=
  (match toText with
   | some t => "(" ++ t ++ ")"
   | none => "(" ++ emailAddress ++ ")") ++ "[mailto:" ++ emailAddress ++ "]"

/-- Embeds `MailToMacro.composeHtml` (src 1424-1431). -/
def mailToComposeHtml (emailAddress : String) (toText : Option String) : String :=
  "<a href=\"mailto:" ++ emailAddress ++ "\">" ++
    (match toText with
     | some t => t
     | none => emailAddress) ++ "</a>"

-- ===========================================================================
-- Interwiki links (src 1886-2011)
-- ===========================================================================

/-- The static `interWikiMap` (src 1897-1964): short name to base URL.
The `count` bookkeeping field carries no behavior and is omitted. -/
def interWikiMap : List (String × String) :=
  [("devthread", "http://dev.list.galaxyproject.org/"),
   ("userthread", "http://user.list.galaxyproject.org/"),
   ("announcethread", "http://announce.list.galaxyproject.org/"),
   ("francethread", "http://france.list.galaxyproject.org/"),
   ("trello", "https://trello.com/b/75c1kASa/galaxy-development"),
   ("toolshedview", "http://toolshed.g2.bx.psu.edu/view/"),
   ("src", "https://github.com/galaxyproject/galaxy/tree/master/"),
   ("srcdoccentral", "https://galaxy-central.readthedocs.org/en/latest/"),
   ("srcdocdist", "https://galaxy-dist.readthedocs.org/en/latest/"),
   ("gmod", "http://gmod.org/wiki/"),
   ("pmid", "http://www.ncbi.nlm.nih.gov/pubmed/"),
   ("main", "https://usegalaxy.org/"),
   ("data_libraries", "https://usegalaxy.org/library/"),
   ("published_histories", "https://usegalaxy.org/history/list_published"),
   ("published_workflows", "https://usegalaxy.org/workflow/list_published"),
   ("published_visualizations", "https://usegalaxy.org/visualization/list_published"),
   ("published_pages", "https://usegalaxy.org/page/list_published"),
   ("bbissue", "https://bitbucket.org/galaxy/galaxy-central/issue/"),
   ("screencast", "http://screencast.g2.bx.psu.edu/"),
   ("devlistthread", "http://dev.list.galaxyproject.org/"),
   ("moinmoin", "http://moinmo.in/"),
   ("wikipedia", "https://en.wikipedia.org/wiki/")]

/-- Python dict lookup `interWikiMap[name]`. -/
def interWikiLookup (name : String) : Option String :=
  (interWikiMap.find? (fun e => e.1 == name)).map (fun e => e.2)

/-- Embeds `InterWikiLink.compose` (src 1996-2011).  A `mailto` prefix (compared
lower-cased) is special-cased through the `MailTo` renderer; otherwise the
prefix is looked up in `interWikiMap` and a missing key raises `KeyError`
(modelled as `Except.error`), which aborts the whole translation.  On a hit
the wiki-page part is appended to the base URL. -/
def interWikiLinkCompose (interWikiName : String) (wikiPage linkText : Option String) :
    Except String String :=
  if pyLower interWikiName == "mailto" then
    match wikiPage with
    | some addr => Except.ok (mailToCompose addr linkText)
    | none => Except.error "AttributeError: wikiPage"
  else
    match interWikiLookup (pyLower interWikiName) with
    | none => Except.error ("KeyError: " ++ pyLower interWikiName)
    | some baseUrl =>
      let url := baseUrl ++ wikiPage.getD ""
      match linkText with
      | some t => Except.ok ("[" ++ t ++ "](" ++ url ++ ")")
      | none => Except.ok ("[" ++ url ++ "](" ++ url ++ ")")

-- ===========================================================================
-- The `translate` driver front end (src 3634-3681)
-- ===========================================================================

/-- The foreign-dialect declaration rejected by `translate` (src 3653). -/
def creoleDecl : String := "#format text/creole"

/-- The front end of `translate` (src 3634-3681): after resetting state and
reading the file, the text is checked for a leading `#format text/creole`
(`moinText[0:19]`) and translation aborts with `NotImplementedError` before
the pre-passes, the parse, the compose and the output write.  Everything
after the check (mystery-character substitution, `identifyIndents`,
`parse`, `compose`, front-matter emission) is abstracted as
`restOfPipeline`. -/
def translate (restOfPipeline : String → Except String String) (moinText : String) :
    Except String String :=
  if moinText.data.take 19 == creoleDecl.data then
    Except.error "NotImplementedError: Creole parsing is not supported."
  else
    restOfPipeline moinText

-- ===========================================================================
-- Inline toggle renderers (src 366-482): Underline, Bold, Italic
-- ===========================================================================

/-- One occurrence of an inline toggle token: `'''` (Bold), `''` (Italic),
or `__` (Underline). -/
inductive ToggleTok where
  | bold
  | italic
  | underline
deriving DecidableEq, Repr

/-- The class-level toggle flags `Bold.inBold`, `Italic.inItalic`,
`Underline.inUnderline`. -/
structure ToggleState where
  inBold : Bool
  inItalic : Bool
  inUnderline : Bool
deriving DecidableEq, Repr

/-- The initial (closed) toggle state; `resetState` restores it. -/
def toggleInit : ToggleState := ⟨false, false, false⟩

/-- Embeds `Bold.composeHtml` (src 418-423): flip `inBold`, emit the opening tag
when the new value is `true`, else the closing tag. -/
def boldComposeHtml (s : ToggleState) : String × ToggleState :=
  let s2 := { s with inBold := !s.inBold }
  (if s2.inBold then "<strong>" else "</strong>", s2)

/-- Embeds `Italic.composeHtml` (src 459-464). -/
def italicComposeHtml (s : ToggleState) : String × ToggleState :=
  let s2 := { s with inItalic := !s.inItalic }
  (if s2.inItalic then "<em>" else "</em>", s2)

/-- Embeds `Underline.composeHtml` (src 379-384). -/
def underlineComposeHtml (s : ToggleState) : String × ToggleState :=
  let s2 := { s with inUnderline := !s.inUnderline }
  (if s2.inUnderline then "<u>" else "</u>", s2)

/-- Raw-mode rendering of a single toggle token. -/
def tokComposeHtml (t : ToggleTok) (s : ToggleState) : String × ToggleState :=
  match t with
  | ToggleTok.bold => boldComposeHtml s
  | ToggleTok.italic => italicComposeHtml s
  | ToggleTok.underline => underlineComposeHtml s

/-- Raw-mode rendering of a sequence of toggle tokens, returning the emitted
tags in order together with the final toggle state. -/
def composeSeqHtml : List ToggleTok → ToggleState → List String × ToggleState
  | [], s => ([], s)
  | t :: ts, s =>
    let r := tokComposeHtml t s
    let rest := composeSeqHtml ts r.2
    (r.1 :: rest.1, rest.2)

/-- Is this emitted tag an opening tag? -/
def isOpeningTag (x : String) : Bool :=
  x == "<strong>" || x == "<em>" || x == "<u>"

/-- Is this emitted tag a closing tag? -/
def isClosingTag (x : String) : Bool :=
  x == "</strong>" || x == "</em>" || x == "</u>"

/-- Number of opening tags among the emitted tags. -/
def countOpening (out : List String) : Nat := (out.filter isOpeningTag).length

/-- Number of closing tags among the emitted tags. -/
def countClosing (out : List String) : Nat := (out.filter isClosingTag).length

/-- Occurrences of one token kind in a token sequence. -/
def countTok (t : ToggleTok) (ts : List ToggleTok) : Nat :=
  (ts.filter (fun x => x = t)).length

/-- Combined weight of the open toggle flags of a state. -/
def toggleWeight (s : ToggleState) : Nat :=
  s.inBold.toNat + s.inItalic.toNat + s.inUnderline.toNat

-- ===========================================================================
-- List engine (src 76-123, 2487-2570)
-- ===========================================================================

/-- Python `while`-loop inside `trackIndent`: keep popping while the stack
is non-empty and the item depth is below the stack top.  The stack top is
the head here (Python keeps it at the end of the list). -/
def popWhileLess (itemDepth : Nat) : List Nat → List Nat
  | [] => []
  | t :: rest => if itemDepth < t then popWhileLess itemDepth rest else t :: rest

/-- Embeds `LeadingSpaces.trackIndent` (src 102-123).  `itemDepth` is the marker
depth plus `baseDepth` (non-zero only inside a code block).  Returns the new
stack and the rendering indent level (`len(depthStack) - 1`).  The empty
stack case is unreachable (Python reads `depthStack[-1]`): callers keep the
stack non-empty. -/
def trackIndent (depthStack : List Nat) (markerDepth baseDepth : Nat) : List Nat × Nat :=
  let itemDepth := markerDepth + baseDepth
  match depthStack with
  | [] => ([], 0)
  | top :: rest =>
    if itemDepth > top then
      (itemDepth :: depthStack, depthStack.length)
    else if itemDepth < top then
      let s1 := popWhileLess itemDepth rest
      let s2 :=
        match s1 with
        | [] => [itemDepth]
        | t :: _ => if t < itemDepth then itemDepth :: s1 else s1
      (s2, s2.length - 1)
    else
      (depthStack, depthStack.length - 1)

/-- One parsed `MoinListItem` (src 2487-2506): the encoded indent depth from
the `@INDENT-n@` marker, the optional list marker (`*` or `1.`), and the
composed text of its sub-elements.  The claims treat item contents that do
not open or close a code block, so composing an item leaves the code-block
flag unchanged here. -/
structure MoinListItem where
  depth : Nat
  itemMarker : Option String
  content : String
deriving DecidableEq, Repr

/-- Embeds `MoinListItem.compose` (src 2508-2523): two spaces per indent level,
then the marker plus one space (or two spaces when the item has no marker),
the composed sub-elements, and a newline. -/
def moinListItemCompose (indentLevel : Nat) (it : MoinListItem) : String :=
  String.mk (List.replicate (indentLevel * 2) ' ') ++
    (match it.itemMarker with
     | some m => m ++ " "
     | none => "  ") ++
    it.content ++ "\n"

/-- The per-item loop of `MoinList.compose` (src 2561-2568), threading the
depth stack, the current indent level and the code-block base depth.
`inCodeBlock` is the `CodeBlockStart.inCodeBlock` flag, which item contents
in the claims never toggle. -/
def moinListComposeGo (inCodeBlock : Bool) :
    List Nat → Nat → Nat → List MoinListItem → String
  | _, _, _, [] => ""
  | depthStack, indentLevel, indentBase, it :: rest =>
    let indentBase2 :=
      if inCodeBlock && indentBase == 0 then indentLevel
      else if !inCodeBlock && indentBase != 0 then 0
      else indentBase
    let r := trackIndent depthStack it.depth indentBase2
    moinListItemCompose r.2 it ++ moinListComposeGo inCodeBlock r.1 r.2 indentBase2 rest

/-- Embeds `MoinList.compose` (src 2558-2570): the depth stack starts as the
singleton of the first item depth, every item is composed in order, and a
single trailing newline closes the list ("have to have a trailing blank
line").  The empty case is unreachable (the grammar requires at least one
item; Python reads `listItems[0]`).  Fresh render state (indent level 0,
indent base 0) is assumed, as after `resetState`. -/
def moinListCompose (inCodeBlock : Bool) (items : List MoinListItem) : String :=
  match items with
  | [] => "\n"
  | i0 :: _ => moinListComposeGo inCodeBlock [i0.depth] 0 0 items ++ "\n"

/-- The sequence of indent levels `MoinList.compose` assigns to the items
(read off the same `trackIndent` stack walk), outside a code block. -/
def moinListLevelsGo : List Nat → List Nat → List Nat
  | _, [] => []
  | depthStack, d :: ds =>
    let r := trackIndent depthStack d 0
    r.2 :: moinListLevelsGo r.1 ds

/-- Indent levels for a list of encoded item depths, with the stack seeded
from the first depth as in `MoinList.compose`. -/
def moinListLevels (depths : List Nat) : List Nat :=
  match depths with
  | [] => []
  | d0 :: _ => moinListLevelsGo [d0] depths

-- ===========================================================================
-- Table engine (src 2611-3031)
-- ===========================================================================

/-- One `CellMoinFormatItem` (src 2611-2649): a span / alignment / style /
background / width marker inside `<...>`.  Note that `cellStyle`, `bgcolor`
and the widths are attributes of the format item, never of the `TableCell`
itself. -/
inductive CellMoinFormatItem where
  | colspan (n : String)
  | rowspan (n : String)
  | left
  | right
  | center
  | top
  | bottom
  | cellStyle (s : String)
  | bgcolor (s : String)
  | width (s : String)
  | unquotedWidth (s : String)
deriving DecidableEq, Repr

/-- A parsed `TableCell` (src 2760-2771): optional `class="..."` (the
unquoted string, as `CellClass.cellClass.justTheString()` reads it) and
optional format items.  The cell content is not consulted by
`needsHTMLRendering` and is omitted. -/
structure TableCell where
  cellClass : Option String
  cellFormat : Option (List CellMoinFormatItem)
deriving DecidableEq, Repr

/-- A parsed `TableRow` (src 2850-2874): optional `rowstyle`, `rowclass`,
first-cell class and first-cell format items (all captured by the row
grammar), plus the remaining cells.  The first cell content is omitted
(not consulted by `needsHTMLRendering`). -/
structure TableRow where
  rowStyle : Option String
  rowClass : Option String
  firstCellClass : Option String
  firstCellFormat : Option (List CellMoinFormatItem)
  rowCells : List TableCell
deriving DecidableEq, Repr

/-- A parsed `Table` (src 2961-2969): one or more rows. -/
structure Table where
  tableRows : List TableRow
deriving DecidableEq, Repr

/-- Embeds `CellClass.isHeader` / `RowClass.isHeader` (src 2750-2751, 2839-2840):
the unquoted class string, lower-cased, equals `th`. -/
def isHeaderClassStr (s : String) : Bool := pyLower s == "th"

/-- Truthiness of an optional class being a header class. -/
def optIsHeaderClass (o : Option String) : Bool :=
  match o with
  | some s => isHeaderClassStr s
  | none => false

/-- Embeds `TableRow.rowIsHeader` (src 2903-2919): true when the row class is
`th`; otherwise, when the first-cell class is `th`, true exactly when every
remaining cell carries a `th` cell class.  The Python function falls off
the end (returns `None`, which is falsy) in all other cases; the callers
only use its truthiness, so that is modelled as `false`. -/
def rowIsHeader (r : TableRow) : Bool :=
  if optIsHeaderClass r.rowClass then true
  else if optIsHeaderClass r.firstCellClass then
    r.rowCells.all (fun c => optIsHeaderClass c.cellClass)
  else false

/-- Python `hasattr(cell, "cellStyle")` inside `needsHTMLRendering`
(src 3023): a `TableCell` never carries a `cellStyle` attribute (styles
live on `CellMoinFormatItem`s inside `cellFormat`), so the test is always
false. -/
def cellHasCellStyleAttr (_c : TableCell) : Bool := false

/-- The row loop of `Table.needsHTMLRendering` (src 2998-3031), with the
running row index and the `firstRowIsHeader` flag.  Exhausting the rows
yields `False` when `firstRowIsHeader` was set and `True` otherwise. -/
def needsHTMLGo : List TableRow → Nat → Bool → Bool
  | [], _, firstRowIsHeader => !firstRowIsHeader
  | row :: rest, rowIdx, firstRowIsHeader =>
    if row.rowClass.isSome && !(rowIsHeader row && rowIdx == 0) then
      true
    else
      let frih := if row.rowClass.isSome then true else firstRowIsHeader
      if row.rowStyle.isSome || row.firstCellFormat.isSome then true
      else if row.firstCellClass.isSome &&
          (decide (rowIdx > 0) || !optIsHeaderClass row.firstCellClass) then true
      else if row.rowCells.any (fun cell =>
          (cell.cellClass.isSome &&
            (decide (rowIdx > 0) || !optIsHeaderClass cell.cellClass)) ||
          cellHasCellStyleAttr cell) then true
      else needsHTMLGo rest (rowIdx + 1) frih

/-- Embeds `Table.needsHTMLRendering` (src 2983-3031). -/
def needsHTMLRendering (t : Table) : Bool :=
  needsHTMLGo t.tableRows 0 false

/-- Conditions a non-first row must satisfy for the analyzer to keep
scanning: no row class, no row style, no first-cell format, no first-cell
class, and no cell class on any cell. -/
def laterRowPlain (row : TableRow) : Prop :=
  row.rowClass = none ∧ row.rowStyle = none ∧ row.firstCellFormat = none ∧
    row.firstCellClass = none ∧ ∀ c ∈ row.rowCells, c.cellClass = none

/-- Conditions the first row must satisfy: a row class that makes
`rowIsHeader` true, no row style, no first-cell format, and any first-cell
or cell class must be `th`. -/
def firstRowHeaderOk (row : TableRow) : Prop :=
  row.rowClass.isSome = true ∧ rowIsHeader row = true ∧
    row.rowStyle = none ∧ row.firstCellFormat = none ∧
    row.firstCellClass.all isHeaderClassStr = true ∧
    ∀ c ∈ row.rowCells, c.cellClass.all isHeaderClassStr = true

/-- Declarative characterization of the tables the analyzer sends to the
simplified (GFM) renderer; the amended claim C1. -/
def rendersAsGFM (t : Table) : Prop :=
  t.tableRows ≠ [] ∧
    (∀ row ∈ t.tableRows.take 1, firstRowHeaderOk row) ∧
    ∀ row ∈ t.tableRows.drop 1, laterRowPlain row

/-- Condition (1) of claim C1: no row declares a row-level style
override. -/
def claimNoRowStyle (t : Table) : Prop :=
  ∀ row ∈ t.tableRows, row.rowStyle = none

/-- Condition (2) of claim C1: no row or cell declares span/width/style
format items (header marking happens through classes, not format items). -/
def claimNoFormatItems (t : Table) : Prop :=
  ∀ row ∈ t.tableRows, row.firstCellFormat = none ∧
    ∀ c ∈ row.rowCells, c.cellFormat = none

/-- Does a row carry any header designation (row level or cell level)? -/
def claimHasHeaderDesignation (row : TableRow) : Prop :=
  optIsHeaderClass row.rowClass = true ∨ optIsHeaderClass row.firstCellClass = true ∨
    ∃ c ∈ row.rowCells, optIsHeaderClass c.cellClass = true

/-- Is the whole row uniformly flagged as a header (via a row-level header
flag, or via every cell of the row individually flagged `th`)? -/
def claimUniformHeaderRow (row : TableRow) : Prop :=
  optIsHeaderClass row.rowClass = true ∨
    (optIsHeaderClass row.firstCellClass = true ∧
      ∀ c ∈ row.rowCells, optIsHeaderClass c.cellClass = true)

/-- Conditions (3) and (4) of claim C1: header designations occur only in
the first row, and where they occur that whole row is uniformly flagged;
non-first rows carry no header designation at all. -/
def claimHeaderOnlyUniformFirstRow (t : Table) : Prop :=
  (∀ row ∈ t.tableRows.take 1, claimHasHeaderDesignation row → claimUniformHeaderRow row) ∧
    ∀ row ∈ t.tableRows.drop 1, ¬ claimHasHeaderDesignation row

/-- The hypothesis of claim C1, as stated: conditions (1) to (4). -/
def claimC1Conditions (t : Table) : Prop :=
  claimNoRowStyle t ∧ claimNoFormatItems t ∧ claimHeaderOnlyUniformFirstRow t

/-- Concrete table refuting claim C1 as stated: a single row whose header
designation is uniform and per-cell (`||<class="th"> a ||<class="th"> b ||`),
with no styling anywhere.  All four conditions of the claim hold, yet the
analyzer still reports that HTML rendering is needed, because
`firstRowIsHeader` is only ever set from a row-level class. -/
def c1Table : Table :=
  ⟨[⟨none, none, some "th", none, [⟨some "th", none⟩]⟩]⟩

/-- A second concrete table: GFM-renderable (row-level `th` on the first
row), with a `style=` format item on a non-first cell of a data row.  The
claim says this must flip the decision to HTML; the analyzer never inspects
`cellFormat` of non-first cells, so it does not. -/
def c1StyledCellTable : Table :=
  ⟨[⟨none, some "th", none, none, [⟨none, none⟩]⟩,
    ⟨none, none, none, none, [⟨none, some [CellMoinFormatItem.cellStyle "border: none"]⟩]⟩]⟩

-- ===========================================================================
-- WikiWord grammar (src 839-840)
-- ===========================================================================

/-- Ordered alternation of single characters: the regex character class
`[...]` over the listed characters. -/
def charClass (cs : List Char) : RegularExpression Char :=
  cs.foldr (fun c r => RegularExpression.char c + r) 0

/-- Characters of the class `[A-Z]`. -/
def upperChars : List Char := "ABCDEFGHIJKLMNOPQRSTUVWXYZ".toList

/-- Characters of the class `[a-z0-9]`. -/
def lowerDigitChars : List Char := "abcdefghijklmnopqrstuvwxyz0123456789".toList

/-- Regex `X+` (one or more). -/
def rePlus (P : RegularExpression Char) : RegularExpression Char := P * P.star

/-- Regex `[A-Z][a-z0-9]+`: one capitalized run. -/
def capRunRE : RegularExpression Char :=
  charClass upperChars * rePlus (charClass lowerDigitChars)

/-- Regex `/?[A-Z][a-z0-9]+([A-Z][a-z0-9]+)+`: the parenthesized group of
the `WikiWord` grammar. -/
def wikiWordGroupRE : RegularExpression Char :=
  (1 + RegularExpression.char '/') * (capRunRE * rePlus capRunRE)

/-- The `WikiWord` grammar regex (src 839-840):
`(/?[A-Z][a-z0-9]+([A-Z][a-z0-9]+)+)+`, required to match the complete
token (pypeg `parse` demands that the whole text be consumed). -/
def wikiWordRE : RegularExpression Char := rePlus wikiWordGroupRE

/-- Does the `WikiWord` grammar accept this complete token? -/
def wikiWordAccepts (s : String) : Bool := wikiWordRE.rmatch s.toList

/-- A capitalized run, as the claim words it: one capital letter followed
by one or more lowercase letters or digits. -/
def IsCapRun (l : List Char) : Prop :=
  ∃ c cs, l = c :: cs ∧ c ∈ upperChars ∧ cs ≠ [] ∧ ∀ d ∈ cs, d ∈ lowerDigitChars

/-- A path segment, as the claim words it: a concatenation of at least two
capitalized runs. -/
def IsWikiSegment (l : List Char) : Prop :=
  ∃ runs : List (List Char), 2 ≤ runs.length ∧ (∀ r ∈ runs, IsCapRun r) ∧ l = runs.flatten

/-- Join path segments with single slashes between them. -/
def joinSegs : List (List Char) → List Char
  | [] => []
  | [s] => s
  | s :: rest => s ++ '/' :: joinSegs rest

/-- The claim-side shape of a WikiWord token: an optional leading slash,
then one or more path segments separated by single slashes, each segment a
concatenation of at least two capitalized runs; in particular the token
cannot end in a slash. -/
def IsWikiWordShape (l : List Char) : Prop :=
  ∃ (lead : List Char) (segs : List (List Char)),
    (lead = [] ∨ lead = ['/']) ∧ segs ≠ [] ∧ (∀ s ∈ segs, IsWikiSegment s) ∧
    l = lead ++ joinSegs segs

/-- The shape matched by one iteration of the outer `(...)+` group of the
`WikiWord` regex: an optional slash followed by at least two capitalized
runs. -/
def IsWikiGroup (p : List Char) : Prop :=
  ∃ lead seg, (lead = [] ∨ lead = ['/']) ∧ IsWikiSegment seg ∧ p = lead ++ seg

-- ===========================================================================
-- Claim-side auxiliary definitions
-- ===========================================================================

/-- Removing exactly `k` trailing components from the wiki-root path, as
claim C2 words the parent-relative rule: drop the last `k` of
`wikiRootParts` and re-join them under the leading slash. -/
def peelWikiRoot (wikiRoot : String) (k : Nat) : String :=
  "/" ++ String.mk (List.intercalate ['/']
    ((wikiRootParts wikiRoot).take ((wikiRootParts wikiRoot).length - k)))

/-- A string ends with exactly one trailing blank line: its final two
characters are newlines and the character before them is not one. -/
def EndsWithOneBlankLine (s : String) : Prop :=
  ∃ l c, s.data = l ++ [c, '\n', '\n'] ∧ c ≠ '\n'

/-- Executable form of `EndsWithOneBlankLine`: look at the reversed
characters. -/
def endsWithOneBlankLineB (s : String) : Bool :=
  match s.data.reverse with
  | '\n' :: '\n' :: c :: _ => c != '\n'
  | _ => false

/-- The five-item list of claim C5, with encoded indent depths
`1, 1, 3, 3, 1`. -/
def c5Items : List MoinListItem :=
  [⟨1, some "*", "a"⟩, ⟨1, some "*", "b"⟩, ⟨3, some "1.", "c"⟩,
   ⟨3, some "2.", "d"⟩, ⟨1, some "*", "e"⟩]

/-- A single-item list whose item contains a bare code-block terminator:
on the source side, `@INDENT-1@* foo }}}` parses with `CodeBlockEnd` as
its last sub-element, and `CodeBlockEnd.compose` (src 633) returns a
string ending in a newline, so the composed item content is
`foo` + backtick fence + newline. -/
def c5CodeFenceItems : List MoinListItem :=
  [⟨1, some "*", "foo ```\n"⟩]

-- ===========================================================================
-- Theorems
-- ===========================================================================

/-- C9: every `Date`/`DateTime` rendering is exactly the first 10
characters of the argument (the calendar-date part of an ISO-8601
timestamp); on `<<Date(2012-01-27T01:02:28Z)>>` the output is exactly
`2012-01-27`. -/
theorem claim_C9_date_truncates_to_calendar_date :
    dateCompose "2012-01-27T01:02:28Z" = "2012-01-27" ∧
      ∀ s : String, (dateCompose s).data = s.data.take 10 :=
  ⟨by decide, fun _ => rfl⟩

/-- C10: the Markdown-mode MailTo rendering is the display text in
parentheses followed by the mailto URL in square brackets (reversed
Markdown link syntax), where the display text is the optional to-text,
falling back to the address; the HTML-mode rendering is a well-formed
anchor element. -/
theorem claim_C10_mailto_reversed_link_syntax :
    ∀ (email : String) (toText : Option String),
      mailToCompose email toText =
        "(" ++ toText.getD email ++ ")" ++ "[mailto:" ++ email ++ "]" ∧
      mailToComposeHtml email toText =
        "<a href=\"mailto:" ++ email ++ "\">" ++ toText.getD email ++ "</a>" := by
  intro email toText
  cases toText <;> exact ⟨rfl, rfl⟩

/-- C7: a document whose text begins with the foreign-dialect declaration
`#format text/creole` makes `translate` fail before any parsing is
attempted: the error is returned no matter what the rest of the pipeline
(pre-passes, parse, compose, output write) would do, so no partial output
can be produced. -/
theorem claim_C7_creole_rejected_before_parsing :
    ∀ (pipelineA pipelineB : String → Except String String) (moinText : String),
      moinText.data.take 19 = creoleDecl.data →
      translate pipelineA moinText =
          Except.error "NotImplementedError: Creole parsing is not supported." ∧
        translate pipelineA moinText = translate pipelineB moinText := by
  intro pipelineA pipelineB moinText h
  have hb : (moinText.data.take 19 == creoleDecl.data) = true := by
    simp [h]
  constructor <;> simp [translate, hb]

/-- Witness for C7 at a concrete creole document. -/
theorem claim_C7_creole_rejected_before_parsing_witness :
    translate (fun s => Except.ok s) "#format text/creole\nSome content" =
      Except.error "NotImplementedError: Creole parsing is not supported." :=
  (claim_C7_creole_rejected_before_parsing (fun s => Except.ok s)
    (fun _ => Except.ok "") "#format text/creole\nSome content" (by decide)).1

/-- C6: for a non-`mailto` interwiki prefix (compared lower-cased), a
prefix absent from the static map makes the rendering fail hard (the
Python dict lookup raises, aborting the translation with no output), and a
present prefix resolves to the base URL of that entry with the wiki-page part
appended. -/
theorem claim_C6_unknown_interwiki_is_hard_failure :
    ∀ (name : String) (wikiPage linkText : Option String),
      pyLower name ≠ "mailto" →
      (interWikiLookup (pyLower name) = none →
        interWikiLinkCompose name wikiPage linkText =
          Except.error ("KeyError: " ++ pyLower name)) ∧
      ∀ baseUrl, interWikiLookup (pyLower name) = some baseUrl →
        interWikiLinkCompose name wikiPage linkText =
          (let url := baseUrl ++ wikiPage.getD ""
           match linkText with
           | some t => Except.ok ("[" ++ t ++ "](" ++ url ++ ")")
           | none => Except.ok ("[" ++ url ++ "](" ++ url ++ ")")) := by
  intro name wikiPage linkText hmail
  have hb : (pyLower name == "mailto") = false := by
    simp [hmail]
  refine ⟨fun hnone => ?_, fun baseUrl hsome => ?_⟩
  · simp [interWikiLinkCompose, hb, hnone]
  · simp [interWikiLinkCompose, hb, hsome]

/-- Witness for C6 at a concrete unknown prefix. -/
theorem claim_C6_unknown_interwiki_is_hard_failure_witness :
    interWikiLinkCompose "NoSuchPrefix" (some "Page") none =
      Except.error ("KeyError: " ++ pyLower "NoSuchPrefix") :=
  (claim_C6_unknown_interwiki_is_hard_failure "NoSuchPrefix" (some "Page") none
    (by decide)).1 (by rfl)

/-- C3: the link `[[/GetGalaxy#This is a 23 Link-to|Install own Galaxy]]`
with wiki root `/src` composes to target
`/src/GetGalaxy/index.md#this-is-a-23-link-to` with display text
`Install own Galaxy`; in general every internal page path composes to a
path ending in `/index.md`, and the anchor fragment is lower-cased,
stripped to word characters, spaces and hyphens, with spaces turned into
hyphens. -/
theorem claim_C3_internal_link_resolution :
    internalLinkCompose "/src" (some "/GetGalaxy") (some "This is a 23 Link-to")
        (some "Install own Galaxy") =
      "[Install own Galaxy](/src/GetGalaxy/index.md#this-is-a-23-link-to)" ∧
    (∀ (root : String) (pp : Option String) (a : String),
      internalPagePathCompose root pp (some a) =
        internalPagePathCompose root pp none ++ "#" ++ moinAnchorToMd a) ∧
    (∀ (root : String) (pp : Option String),
      ∃ base, internalPagePathCompose root pp none = base ++ "/index.md") ∧
    (∀ a : String, (moinAnchorToMd a).data =
      ((a.data.map Char.toLower).filter
        (fun c => isWordCharPy c || c == ' ' || c == '-')).map
        (fun c => if c == ' ' then '-' else c)) :=
  ⟨by decide, fun _ _ _ => rfl, fun root pp => ⟨getWikiRootPath root pp, rfl⟩,
    fun _ => rfl⟩

/-- Counterexample to C2 as stated: for `../Page` (one occurrence of
`../`) under wiki root `/a/b`, the claim prescribes removing exactly one
trailing component (giving `/a/Page`), but the code removes none and
yields `/a/b/Page`. -/
theorem claim_C2_counterexample :
    isPageRelativeLink "../Page" = true ∧
    countDotDotSlash ("../Page").data = 1 ∧
    getWikiRootPath "/a/b" (some "../Page") = "/a/b/Page" ∧
    peelWikiRoot "/a/b" 1 ++ "/" ++ String.mk (removeDotDotSlash ("../Page").data) =
      "/a/Page" ∧
    ("/a/b/Page" : String) ≠ "/a/Page" :=
  ⟨by decide, by decide, by decide, by decide, by decide⟩

/-- C2 (amended): for a parent-relative page part with `n` occurrences of
`../`, and a well-formed configured wiki root (one equal to `/` followed by
its slash-joined components), `getWikiRootPath` removes exactly `n - 1`
trailing components from the wiki-root path (none when `n = 1`) and
appends a slash plus the page part with every `../` removed. -/
theorem claim_C2_parent_relative_peels_one_less :
    ∀ (root pp : String),
      isPageRelativeLink pp = true →
      peelWikiRoot root 0 = root →
      getWikiRootPath root (some pp) =
        peelWikiRoot root (countDotDotSlash pp.data - 1) ++ "/" ++
          String.mk (removeDotDotSlash pp.data) := by
  intro root pp hrel hroot
  obtain ⟨rest, hrest⟩ : ∃ rest, pp.data = '.' :: '.' :: '/' :: rest := by
    unfold isPageRelativeLink at hrel
    split at hrel
    · next heq => exact ⟨_, heq⟩
    · exact absurd hrel (by simp)
  have hsub : isSubPageLink pp = false := by
    unfold isSubPageLink
    rw [hrest]
    rfl
  have hcount : countDotDotSlash pp.data = countDotDotSlash rest + 1 := by
    rw [hrest, countDotDotSlash]
  by_cases hone : countDotDotSlash rest = 0
  · have h1 : countDotDotSlash pp.data = 1 := by omega
    simp only [getWikiRootPath, hsub, hrel, if_true, if_false, Bool.false_eq_true,
      h1]
    norm_num
    rw [show (peelWikiRoot root (1 - 1)) = root from by simpa using hroot]
  · have h1 : (countDotDotSlash pp.data != 1) = true := by
      simp [hcount]
      omega
    simp only [getWikiRootPath, hsub, hrel, if_true, if_false, Bool.false_eq_true,
      h1, peelWikiRoot, wikiRootParts]

/-- Witness for C2 (amended) at a concrete two-level parent-relative
path. -/
theorem claim_C2_parent_relative_peels_one_less_witness :
    getWikiRootPath "/a/b/c" (some "../../Page") =
      peelWikiRoot "/a/b/c" (countDotDotSlash ("../../Page").data - 1) ++ "/" ++
        String.mk (removeDotDotSlash ("../../Page").data) :=
  claim_C2_parent_relative_peels_one_less "/a/b/c" "../../Page" (by decide) (by decide)

/-- Counting opening tags distributes over cons. -/
theorem countOpening_cons (a : String) (l : List String) :
    countOpening (a :: l) = (if isOpeningTag a then 1 else 0) + countOpening l := by
  by_cases h : isOpeningTag a = true <;>
    simp [countOpening, List.filter_cons, h, Nat.add_comm]

/-- Counting closing tags distributes over cons. -/
theorem countClosing_cons (a : String) (l : List String) :
    countClosing (a :: l) = (if isClosingTag a then 1 else 0) + countClosing l := by
  by_cases h : isClosingTag a = true <;>
    simp [countClosing, List.filter_cons, h, Nat.add_comm]

/-- One toggle token preserves the balance invariant: opening tags emitted
plus the initial open-flag weight equals closing tags emitted plus the
final open-flag weight. -/
theorem tokComposeHtml_weight (t : ToggleTok) (s : ToggleState) :
    (if isOpeningTag (tokComposeHtml t s).1 then 1 else 0) + toggleWeight s =
      (if isClosingTag (tokComposeHtml t s).1 then 1 else 0) +
        toggleWeight (tokComposeHtml t s).2 := by
  obtain ⟨b, i, u⟩ := s
  cases t <;> cases b <;> cases i <;> cases u <;> decide

/-- The balance invariant for a whole toggle sequence. -/
theorem composeSeqHtml_weight (ts : List ToggleTok) (s : ToggleState) :
    countOpening (composeSeqHtml ts s).1 + toggleWeight s =
      countClosing (composeSeqHtml ts s).1 + toggleWeight (composeSeqHtml ts s).2 := by
  induction ts generalizing s with
  | nil => simp [composeSeqHtml, countOpening, countClosing]
  | cons t ts ih =>
    have hstep := tokComposeHtml_weight t s
    have hih := ih (tokComposeHtml t s).2
    simp only [composeSeqHtml, countOpening_cons, countClosing_cons]
    omega

/-- The final value of each toggle flag is its initial value xor the
parity of the occurrence count of its token kind. -/
theorem composeSeqHtml_state (ts : List ToggleTok) (s : ToggleState) :
    (composeSeqHtml ts s).2.inBold =
        (s.inBold).xor (countTok ToggleTok.bold ts % 2 == 1) ∧
      (composeSeqHtml ts s).2.inItalic =
        (s.inItalic).xor (countTok ToggleTok.italic ts % 2 == 1) ∧
      (composeSeqHtml ts s).2.inUnderline =
        (s.inUnderline).xor (countTok ToggleTok.underline ts % 2 == 1) := by
  induction ts generalizing s with
  | nil => simp [composeSeqHtml, countTok]
  | cons t ts ih =>
    have ihb := fun s => (ih s).1
    have ihi := fun s => (ih s).2.1
    have ihu := fun s => (ih s).2.2
    have hpar : ∀ n : Nat, ((n + 1) % 2 == 1) = !(n % 2 == 1) := by
      intro n
      have hmod : (n + 1) % 2 = (n % 2 + 1 % 2) % 2 := Nat.add_mod n 1 2
      rcases Nat.mod_two_eq_zero_or_one n with h | h <;> rw [hmod, h] <;> rfl
    cases t <;>
      refine ⟨?_, ?_, ?_⟩ <;>
      simp [composeSeqHtml, ihb, ihi, ihu, countTok, List.filter_cons,
        tokComposeHtml, boldComposeHtml, italicComposeHtml, underlineComposeHtml,
        hpar]

/-- Counterexample to C4 as stated: a single bold token (an odd occurrence
count) emits one opening tag and no closing tag in raw mode, so the number
of opening tags emitted does not always equal the number of closing
tags. -/
theorem claim_C4_counterexample :
    countOpening (composeSeqHtml [ToggleTok.bold] toggleInit).1 = 1 ∧
      countClosing (composeSeqHtml [ToggleTok.bold] toggleInit).1 = 0 := by
  decide

/-- C4 (amended): for a fully matched document (every toggle kind occurs
an even number of times), raw-mode rendering emits as many opening tags as
closing tags, and every toggle flag is back to its initial closed value
afterwards. -/
theorem claim_C4_matched_toggles_balance (ts : List ToggleTok)
    (hb : countTok ToggleTok.bold ts % 2 = 0)
    (hi : countTok ToggleTok.italic ts % 2 = 0)
    (hu : countTok ToggleTok.underline ts % 2 = 0) :
    countOpening (composeSeqHtml ts toggleInit).1 =
        countClosing (composeSeqHtml ts toggleInit).1 ∧
      (composeSeqHtml ts toggleInit).2 = toggleInit := by
  obtain ⟨h1, h2, h3⟩ := composeSeqHtml_state ts toggleInit
  have hfinal : (composeSeqHtml ts toggleInit).2 = toggleInit := by
    have e1 : (countTok ToggleTok.bold ts % 2 == 1) = false := by simp [hb]
    have e2 : (countTok ToggleTok.italic ts % 2 == 1) = false := by simp [hi]
    have e3 : (countTok ToggleTok.underline ts % 2 == 1) = false := by simp [hu]
    rcases hout : (composeSeqHtml ts toggleInit).2 with ⟨b, i, u⟩
    rw [hout] at h1 h2 h3
    simp only [toggleInit, e1, e2, e3] at h1 h2 h3 ⊢
    simp_all
  refine ⟨?_, hfinal⟩
  have hw := composeSeqHtml_weight ts toggleInit
  rw [hfinal] at hw
  simpa [toggleWeight, toggleInit] using hw

/-- Witness for C4 (amended) at a concrete fully-matched sequence. -/
theorem claim_C4_matched_toggles_balance_witness :
    countOpening (composeSeqHtml [ToggleTok.bold, ToggleTok.italic, ToggleTok.bold,
          ToggleTok.underline, ToggleTok.italic, ToggleTok.underline] toggleInit).1 =
        countClosing (composeSeqHtml [ToggleTok.bold, ToggleTok.italic, ToggleTok.bold,
          ToggleTok.underline, ToggleTok.italic, ToggleTok.underline] toggleInit).1 ∧
      (composeSeqHtml [ToggleTok.bold, ToggleTok.italic, ToggleTok.bold,
          ToggleTok.underline, ToggleTok.italic, ToggleTok.underline] toggleInit).2 =
        toggleInit :=
  claim_C4_matched_toggles_balance _ (by decide) (by decide) (by decide)

/-- The characters of one composed list item: indent spaces, marker part
(ending in a space), the item content, and a final newline. -/
theorem moinListItemCompose_data (lvl : Nat) (it : MoinListItem) :
    (moinListItemCompose lvl it).data =
      List.replicate (lvl * 2) ' ' ++
        (match it.itemMarker with
         | some m => m.data ++ [' ']
         | none => [' ', ' ']) ++ it.content.data ++ ['\n'] := by
  have hsp : (" " : String).data = [' '] := rfl
  have htwo : ("  " : String).data = [' ', ' '] := rfl
  have hnl : ("\n" : String).data = ['\n'] := rfl
  rcases it with ⟨d, mk?, content⟩
  cases mk? <;>
    simp [moinListItemCompose, String.data_append, hsp, htwo, hnl, List.append_assoc]

/-- One composed list item ends in its final newline, and the character
before that newline is a space (empty content) or the last content
character. -/
theorem moinListItemCompose_ends (lvl2 : Nat) (it : MoinListItem)
    (hok : it.content.data.getLast? ≠ some '\n') :
    ∃ l c, (moinListItemCompose lvl2 it).data = l ++ [c, '\n'] ∧ c ≠ '\n' := by
  rw [moinListItemCompose_data]
  rcases List.eq_nil_or_concat it.content.data with hc | ⟨cInit, c, hc⟩
  · rcases hmk : it.itemMarker with _ | m
    · exact ⟨List.replicate (lvl2 * 2) ' ' ++ [' '], ' ',
        by simp [hmk, hc, List.append_assoc], by decide⟩
    · exact ⟨List.replicate (lvl2 * 2) ' ' ++ m.data, ' ',
        by simp [hmk, hc, List.append_assoc], by decide⟩
  · have hlast : it.content.data.getLast? = some c := by
      rw [hc, List.concat_eq_append]
      exact List.getLast?_concat cInit
    have hcne : c ≠ '\n' := by
      intro h
      exact hok (by rw [hlast, h])
    refine ⟨List.replicate (lvl2 * 2) ' ' ++
      (match it.itemMarker with
       | some m => m.data ++ [' ']
       | none => [' ', ' ']) ++ cInit, c, ?_, hcne⟩
    simp [hc, List.concat_eq_append, List.append_assoc]

/-- Unfolding of the item loop on a cons cell: some indent level and some
successor state exist such that the output is the item compose followed by
the loop on the remaining items. -/
theorem moinListComposeGo_cons (inCodeBlock : Bool) (it : MoinListItem)
    (rest : List MoinListItem) (stack : List Nat) (lvl base : Nat) :
    ∃ lvl2 stack2 base2,
      moinListComposeGo inCodeBlock stack lvl base (it :: rest) =
        moinListItemCompose lvl2 it ++ moinListComposeGo inCodeBlock stack2 lvl2 base2 rest :=
  ⟨_, _, _, rfl⟩

/-- The composed items of a list end in a newline whose preceding
character is not a newline, provided no item content ends in one. -/
theorem moinListComposeGo_ends :
    ∀ (items : List MoinListItem) (stack : List Nat) (lvl base : Nat),
      items ≠ [] →
      (∀ it ∈ items, it.content.data.getLast? ≠ some '\n') →
      ∃ l c, (moinListComposeGo false stack lvl base items).data = l ++ [c, '\n'] ∧
        c ≠ '\n' := by
  intro items
  induction items with
  | nil => intro _ _ _ hne _; exact absurd rfl hne
  | cons it rest ih =>
    intro stack lvl base _ hok
    obtain ⟨lvl2, stack2, base2, hsplit⟩ :=
      moinListComposeGo_cons false it rest stack lvl base
    rw [hsplit, String.data_append]
    by_cases hrest : rest = []
    · subst hrest
      obtain ⟨l, c, hEq, hc⟩ :=
        moinListItemCompose_ends lvl2 it (hok it (by simp))
      have hempty : (moinListComposeGo false stack2 lvl2 base2 []).data = [] := rfl
      exact ⟨l, c, by simp [hEq, hempty, List.append_assoc], hc⟩
    · obtain ⟨l, c, hEq, hc⟩ := ih stack2 lvl2 base2 hrest
        (fun x hx => hok x (by simp [hx]))
      exact ⟨(moinListItemCompose lvl2 it).data ++ l, c,
        by simp [hEq, List.append_assoc], hc⟩

/-- Deciding `EndsWithOneBlankLine` by inspecting the reversed
characters. -/
theorem endsWithOneBlankLine_iff (s : String) :
    EndsWithOneBlankLine s ↔ endsWithOneBlankLineB s = true := by
  constructor
  · rintro ⟨l, c, hEq, hc⟩
    unfold endsWithOneBlankLineB
    rw [hEq]
    simpa [List.reverse_append] using hc
  · intro h
    unfold endsWithOneBlankLineB at h
    split at h
    · next c rest heq =>
      refine ⟨rest.reverse, c, ?_, by simpa using h⟩
      have h2 := congrArg List.reverse heq
      simpa [List.append_assoc] using h2
    · exact absurd h (by simp)

/-- Counterexample to C5 as stated: the single-item list
`c5CodeFenceItems`, whose item ends in a bare code-block terminator
(`CodeBlockEnd.compose` returns a newline-terminated fence, src 633),
composes to an output ending in three newlines, i.e. two trailing blank
lines, so the composed output does not end with exactly one trailing
blank line regardless of source formatting. -/
theorem claim_C5_counterexample :
    (moinListCompose false c5CodeFenceItems).data =
      "* foo ```".data ++ ['\n', '\n', '\n'] ∧
    ¬ EndsWithOneBlankLine (moinListCompose false c5CodeFenceItems) := by
  refine ⟨by decide, ?_⟩
  rw [endsWithOneBlankLine_iff]
  decide

/-- C5 (amended): composing a list whose items carry encoded depths
`1, 1, 3, 3, 1` (outside a code block) assigns the rendering indent
levels `0, 0, 1, 1, 0` through the indent-depth stack, and the composed
output of a list block ends with exactly one trailing blank line
provided the composed content of no item itself ends in a newline (an
item whose content ends in a newline, such as a bare code-block
terminator, leaves an extra blank line). -/
theorem claim_C5_list_levels_and_trailing_blank :
    moinListLevels [1, 1, 3, 3, 1] = [0, 0, 1, 1, 0] ∧
    ∀ items : List MoinListItem, items ≠ [] →
      (∀ it ∈ items, it.content.data.getLast? ≠ some '\n') →
      EndsWithOneBlankLine (moinListCompose false items) := by
  refine ⟨by decide, ?_⟩
  intro items hne hok
  obtain ⟨i0, rest, rfl⟩ := List.exists_cons_of_ne_nil hne
  obtain ⟨l, c, hEq, hc⟩ :=
    moinListComposeGo_ends (i0 :: rest) [i0.depth] 0 0 (by simp) hok
  refine ⟨l, c, ?_, hc⟩
  have hnl : ("\n" : String).data = ['\n'] := rfl
  simp [moinListCompose, String.data_append, hEq, hnl, List.append_assoc]

/-- Witness for C5 at the concrete five-item list with depths
`1, 1, 3, 3, 1`. -/
theorem claim_C5_list_levels_and_trailing_blank_witness :
    EndsWithOneBlankLine (moinListCompose false c5Items) :=
  claim_C5_list_levels_and_trailing_blank.2 c5Items (by decide) (by decide)

/-- An optional class passes the th-only check of the analyzer exactly when it
is absent or is a header class. -/
theorem opt_all_header (o : Option String) :
    ((o.isSome && !optIsHeaderClass o) = false) ↔ o.all isHeaderClassStr = true := by
  cases o <;> simp [optIsHeaderClass, Option.all, isHeaderClassStr]

/-- The cell scan of the analyzer at row index 0 passes exactly when every cell
class present is a header class. -/
theorem cells_any_header (cells : List TableCell) :
    ((cells.any fun c => c.cellClass.isSome && !optIsHeaderClass c.cellClass) = false) ↔
      ∀ c ∈ cells, c.cellClass.all isHeaderClassStr = true := by
  simp only [List.any_eq_false, Bool.not_eq_true]
  constructor
  · intro h c hc
    exact (opt_all_header c.cellClass).mp (h c hc)
  · intro h c hc
    exact (opt_all_header c.cellClass).mpr (h c hc)

/-- Past the first row, the analyzer keeps scanning exactly when the
remaining rows are completely plain and the header flag was set. -/
theorem needsHTMLGo_pos :
    ∀ (rows : List TableRow) (idx : Nat) (frih : Bool), 1 ≤ idx →
      (needsHTMLGo rows idx frih = false ↔
        (frih = true ∧ ∀ row ∈ rows, laterRowPlain row)) := by
  intro rows
  induction rows with
  | nil =>
    intro idx frih _
    simp [needsHTMLGo]
  | cons row rest ih =>
    intro idx frih hidx
    have h0 : (idx == 0) = false := by
      simp
      omega
    have h1 : (decide (idx > 0)) = true := by
      simp
      omega
    have hih := ih (idx + 1) frih (by omega)
    obtain ⟨rs, rc, fcc, fcf, cells⟩ := row
    cases rc <;> cases rs <;> cases fcf <;> cases fcc <;>
      simp [needsHTMLGo, h0, h1, laterRowPlain, hih, cellHasCellStyleAttr,
        List.any_eq_false] <;>
      tauto

/-- The row-0 step plus scan: the full characterization of the analyzer,
claim C1 amended: the simplified (GFM) rendering is chosen exactly when
the first row carries a row class making `rowIsHeader` true, carries no
row style or first-cell format items, only `th` first-cell/cell classes,
and every later row is completely plain (no classes, style, or first-cell
format; per-cell format items of non-first cells are never inspected). -/
theorem claim_C1_feasibility_characterization :
    ∀ t : Table, needsHTMLRendering t = false ↔ rendersAsGFM t := by
  intro t
  obtain ⟨rows⟩ := t
  cases rows with
  | nil => simp [needsHTMLRendering, needsHTMLGo, rendersAsGFM]
  | cons r0 rest =>
    obtain ⟨rs, rc, fcc, fcf, cells⟩ := r0
    by_cases hrc : rc.isSome = true
    case neg =>
      have hrcn : rc = none := Option.not_isSome_iff_eq_none.mp (by simpa using hrc)
      subst hrcn
      have hfin : needsHTMLGo rest 1 false = true := by
        cases hfe : needsHTMLGo rest 1 false
        · exact absurd ((needsHTMLGo_pos rest 1 false (by omega)).mp hfe).1 (by simp)
        · rfl
      have hLHS : needsHTMLRendering ⟨⟨rs, none, fcc, fcf, cells⟩ :: rest⟩ = true := by
        simp only [needsHTMLRendering, needsHTMLGo, Option.isSome_none,
          Bool.false_and, Bool.false_eq_true, if_false]
        split_ifs <;> simp [hfin]
      simp [hLHS, rendersAsGFM, firstRowHeaderOk]
    case pos =>
      obtain ⟨rcv, rfl⟩ := Option.isSome_iff_exists.mp hrc
      by_cases hrih : rowIsHeader ⟨rs, some rcv, fcc, fcf, cells⟩ = true
      case neg =>
        have hrihf : rowIsHeader ⟨rs, some rcv, fcc, fcf, cells⟩ = false :=
          Bool.not_eq_true _ ▸ (by simpa using hrih)
        have hLHS : needsHTMLRendering ⟨⟨rs, some rcv, fcc, fcf, cells⟩ :: rest⟩ = true := by
          simp [needsHTMLRendering, needsHTMLGo, hrihf]
        simp [hLHS, rendersAsGFM, firstRowHeaderOk, hrihf]
      case pos =>
        cases rs
        case some s =>
          have hLHS : needsHTMLRendering
              ⟨⟨some s, some rcv, fcc, fcf, cells⟩ :: rest⟩ = true := by
            simp [needsHTMLRendering, needsHTMLGo, hrih]
          simp [hLHS, rendersAsGFM, firstRowHeaderOk]
        case none =>
        cases fcf
        case some f =>
          have hLHS : needsHTMLRendering
              ⟨⟨none, some rcv, fcc, some f, cells⟩ :: rest⟩ = true := by
            simp [needsHTMLRendering, needsHTMLGo, hrih]
          simp [hLHS, rendersAsGFM, firstRowHeaderOk]
        case none =>
        by_cases hfcc : (fcc.isSome && !optIsHeaderClass fcc) = true
        · have hLHS : needsHTMLRendering
              ⟨⟨none, some rcv, fcc, none, cells⟩ :: rest⟩ = true := by
            simp [needsHTMLRendering, needsHTMLGo, hrih, hfcc]
          have hnall : ¬ fcc.all isHeaderClassStr = true := by
            intro hall
            rw [(opt_all_header fcc).mpr hall] at hfcc
            exact absurd hfcc (by simp)
          simp [hLHS, rendersAsGFM, firstRowHeaderOk, hnall]
        · have hfccf : (fcc.isSome && !optIsHeaderClass fcc) = false := by
            simpa using hfcc
          by_cases hcell :
              (cells.any fun c => c.cellClass.isSome && !optIsHeaderClass c.cellClass) = true
          · have hLHS : needsHTMLRendering
                ⟨⟨none, some rcv, fcc, none, cells⟩ :: rest⟩ = true := by
              simp [needsHTMLRendering, needsHTMLGo, hrih, hfccf,
                cellHasCellStyleAttr]
              left
              simpa [List.any_eq_true] using hcell
            have hncells : ¬ ∀ c ∈ cells, c.cellClass.all isHeaderClassStr = true := by
              intro hall
              rw [(cells_any_header cells).mpr hall] at hcell
              exact absurd hcell (by simp)
            rw [hLHS]
            simp only [Bool.true_eq_false, false_iff]
            intro hcontra
            obtain ⟨_, hfirst, _⟩ := hcontra
            exact hncells
              (hfirst ⟨none, some rcv, fcc, none, cells⟩ (by simp)).2.2.2.2.2
          · have hcellf :
                (cells.any fun c => c.cellClass.isSome && !optIsHeaderClass c.cellClass) = false := by
              simpa using hcell
            have hstep : needsHTMLRendering ⟨⟨none, some rcv, fcc, none, cells⟩ :: rest⟩ =
                needsHTMLGo rest 1 true := by
              simp [needsHTMLRendering, needsHTMLGo, hrih, hfccf, cellHasCellStyleAttr,
                hcellf]
            rw [hstep, needsHTMLGo_pos rest 1 true (by omega)]
            simp [rendersAsGFM, firstRowHeaderOk, hrih,
              (opt_all_header fcc).mp hfccf, (cells_any_header cells).mp hcellf]
            exact fun _ => (cells_any_header cells).mp hcellf

/-- Counterexample to C1 as stated, in both directions of its iff.  The
table `c1Table` (one row, uniformly header-flagged per cell, no styling)
satisfies conditions (1) to (4) of the claim yet the analyzer demands HTML
rendering, because `firstRowIsHeader` is only ever set from a row-level
class.  The table `c1StyledCellTable` carries a per-cell `style=` format
item on a data-row cell, violating condition (2), yet the analyzer still
chooses the simplified rendering, because it never inspects the format
items of non-first cells. -/
theorem claim_C1_counterexample :
    (claimC1Conditions c1Table ∧ needsHTMLRendering c1Table = true) ∧
      (¬ claimC1Conditions c1StyledCellTable ∧
        needsHTMLRendering c1StyledCellTable = false) := by
  refine ⟨⟨?_, by decide⟩, ?_, by decide⟩
  · unfold claimC1Conditions claimNoRowStyle claimNoFormatItems
      claimHeaderOnlyUniformFirstRow claimHasHeaderDesignation claimUniformHeaderRow
    decide
  · unfold claimC1Conditions claimNoRowStyle claimNoFormatItems
      claimHeaderOnlyUniformFirstRow claimHasHeaderDesignation claimUniformHeaderRow
    decide

/-- Matching a character class: exactly the singleton strings over the
listed characters. -/
theorem charClass_rmatch_iff (cs : List Char) (x : List Char) :
    (charClass cs).rmatch x = true ↔ ∃ c ∈ cs, x = [c] := by
  induction cs with
  | nil => simp [charClass, RegularExpression.zero_rmatch]
  | cons c cs ih =>
    simp only [charClass, List.foldr_cons]
    rw [show (List.foldr (fun c r => RegularExpression.char c + r) 0 cs) = charClass cs
      from rfl]
    constructor
    · intro h
      rcases (RegularExpression.add_rmatch_iff _ _ x).mp h with h | h
      · exact ⟨c, by simp, (RegularExpression.char_rmatch_iff c x).mp h⟩
      · obtain ⟨d, hd, rfl⟩ := ih.mp h
        exact ⟨d, by simp [hd], rfl⟩
    · rintro ⟨d, hd, rfl⟩
      rcases List.mem_cons.mp hd with rfl | hd2
      · exact (RegularExpression.add_rmatch_iff _ _ _).mpr
          (Or.inl ((RegularExpression.char_rmatch_iff d [d]).mpr rfl))
      · exact (RegularExpression.add_rmatch_iff _ _ _).mpr
          (Or.inr (ih.mpr ⟨d, hd2, rfl⟩))

/-- Matching `P+` (encoded as `P * P.star`): a head match followed by a
list of further non-empty matches. -/
theorem rePlus_rmatch_iff (P : RegularExpression Char) (x : List Char) :
    (rePlus P).rmatch x = true ↔
      ∃ (t : List Char) (S : List (List Char)),
        x = t ++ S.flatten ∧ P.rmatch t = true ∧
        ∀ s ∈ S, s ≠ [] ∧ P.rmatch s = true := by
  constructor
  · intro h
    obtain ⟨t, u, hx, hP, hstar⟩ := (RegularExpression.mul_rmatch_iff P P.star x).mp h
    obtain ⟨S, hu, hS⟩ := (RegularExpression.star_rmatch_iff P u).mp hstar
    exact ⟨t, S, by rw [hx, hu], hP, hS⟩
  · rintro ⟨t, S, hx, hP, hS⟩
    exact (RegularExpression.mul_rmatch_iff P P.star x).mpr
      ⟨t, S.flatten, hx, hP, (RegularExpression.star_rmatch_iff P S.flatten).mpr
        ⟨S, rfl, hS⟩⟩

/-- Flattening singleton chunks gives back the original list. -/
theorem flatten_map_singleton (l : List Char) :
    (l.map (fun d => [d])).flatten = l := by
  induction l <;> simp [*]

/-- Matching `[class]+`: the non-empty strings over the class. -/
theorem classPlus_rmatch_iff (cs : List Char) (x : List Char) :
    (rePlus (charClass cs)).rmatch x = true ↔ x ≠ [] ∧ ∀ c ∈ x, c ∈ cs := by
  rw [rePlus_rmatch_iff]
  constructor
  · rintro ⟨t, S, rfl, hP, hS⟩
    obtain ⟨c, hc, rfl⟩ := (charClass_rmatch_iff cs t).mp hP
    refine ⟨by simp, ?_⟩
    intro d hd
    rcases List.mem_append.mp hd with h | h
    · rw [List.mem_singleton.mp h]
      exact hc
    · obtain ⟨s, hs, hds⟩ := List.mem_flatten.mp h
      obtain ⟨e, he, rfl⟩ := (charClass_rmatch_iff cs s).mp (hS s hs).2
      rw [List.mem_singleton.mp hds]
      exact he
  · rintro ⟨hne, hall⟩
    obtain ⟨c, rest, rfl⟩ := List.exists_cons_of_ne_nil hne
    refine ⟨[c], rest.map (fun d => [d]), by simp [flatten_map_singleton], ?_, ?_⟩
    · exact (charClass_rmatch_iff cs [c]).mpr ⟨c, hall c (by simp), rfl⟩
    · intro s hs
      obtain ⟨d, hd, rfl⟩ := List.mem_map.mp hs
      exact ⟨by simp, (charClass_rmatch_iff cs [d]).mpr ⟨d, hall d (by simp [hd]), rfl⟩⟩

/-- Matching one capitalized run `[A-Z][a-z0-9]+`. -/
theorem capRun_rmatch_iff (x : List Char) :
    capRunRE.rmatch x = true ↔ IsCapRun x := by
  unfold capRunRE IsCapRun
  constructor
  · intro h
    obtain ⟨t, u, hx, ht, hu⟩ :=
      (RegularExpression.mul_rmatch_iff _ _ x).mp h
    obtain ⟨c, hc, rfl⟩ := (charClass_rmatch_iff upperChars t).mp ht
    obtain ⟨hne, hall⟩ := (classPlus_rmatch_iff lowerDigitChars u).mp hu
    exact ⟨c, u, by simpa using hx, hc, hne, hall⟩
  · rintro ⟨c, cs, rfl, hc, hne, hall⟩
    exact (RegularExpression.mul_rmatch_iff _ _ _).mpr
      ⟨[c], cs, rfl, (charClass_rmatch_iff upperChars [c]).mpr ⟨c, hc, rfl⟩,
        (classPlus_rmatch_iff lowerDigitChars cs).mpr ⟨hne, hall⟩⟩

/-- A capitalized run is non-empty. -/
theorem isCapRun_ne_nil {x : List Char} (h : IsCapRun x) : x ≠ [] := by
  obtain ⟨c, cs, rfl, _⟩ := h
  simp

/-- A segment (at least two capitalized runs) is non-empty. -/
theorem isWikiSegment_ne_nil {x : List Char} (h : IsWikiSegment x) : x ≠ [] := by
  obtain ⟨runs, hlen, hruns, rfl⟩ := h
  match runs, hlen with
  | r0 :: rs, _ =>
    obtain ⟨c, cs, rfl, _⟩ := hruns r0 (by simp)
    simp

/-- Matching `run run+`: exactly the segments of at least two runs. -/
theorem capRunPlus_rmatch_iff (x : List Char) :
    (capRunRE * rePlus capRunRE).rmatch x = true ↔ IsWikiSegment x := by
  rw [RegularExpression.mul_rmatch_iff]
  constructor
  · rintro ⟨t, u, hx, ht, hu⟩
    obtain ⟨t2, S, hu2, ht2, hS⟩ := (rePlus_rmatch_iff capRunRE u).mp hu
    refine ⟨t :: t2 :: S, by simp, ?_, ?_⟩
    · intro r hr
      rcases List.mem_cons.mp hr with rfl | hr2
      · exact (capRun_rmatch_iff r).mp ht
      rcases List.mem_cons.mp hr2 with rfl | hr3
      · exact (capRun_rmatch_iff r).mp ht2
      · exact (capRun_rmatch_iff r).mp (hS r hr3).2
    · rw [hx, hu2]
      simp
  · rintro ⟨runs, hlen, hruns, rfl⟩
    match runs, hlen with
    | r0 :: r1 :: rs, _ =>
      refine ⟨r0, (r1 :: rs).flatten, by simp, (capRun_rmatch_iff r0).mpr
        (hruns r0 (by simp)), ?_⟩
      refine (rePlus_rmatch_iff capRunRE ((r1 :: rs).flatten)).mpr
        ⟨r1, rs, by simp, (capRun_rmatch_iff r1).mpr (hruns r1 (by simp)), ?_⟩
      intro s hs
      have hcr : IsCapRun s := hruns s (by simp [hs])
      exact ⟨isCapRun_ne_nil hcr, (capRun_rmatch_iff s).mpr hcr⟩

/-- Matching one group `/?run run+` of the WikiWord regex. -/
theorem wikiWordGroup_rmatch_iff (x : List Char) :
    wikiWordGroupRE.rmatch x = true ↔ IsWikiGroup x := by
  unfold wikiWordGroupRE IsWikiGroup
  rw [RegularExpression.mul_rmatch_iff]
  constructor
  · rintro ⟨t, u, hx, ht, hu⟩
    have ht2 : t = [] ∨ t = ['/'] := by
      rcases (RegularExpression.add_rmatch_iff _ _ t).mp ht with h | h
      · exact Or.inl ((RegularExpression.one_rmatch_iff t).mp h)
      · exact Or.inr ((RegularExpression.char_rmatch_iff '/' t).mp h)
    exact ⟨t, u, ht2, (capRunPlus_rmatch_iff u).mp hu, hx⟩
  · rintro ⟨lead, seg, hlead, hseg, rfl⟩
    refine ⟨lead, seg, rfl, ?_, (capRunPlus_rmatch_iff seg).mpr hseg⟩
    rcases hlead with rfl | rfl
    · exact (RegularExpression.add_rmatch_iff _ _ _).mpr
        (Or.inl ((RegularExpression.one_rmatch_iff _).mpr rfl))
    · exact (RegularExpression.add_rmatch_iff _ _ _).mpr
        (Or.inr ((RegularExpression.char_rmatch_iff _ _).mpr rfl))

/-- A WikiWord group is non-empty. -/
theorem isWikiGroup_ne_nil {p : List Char} (h : IsWikiGroup p) : p ≠ [] := by
  obtain ⟨lead, seg, _, hseg, rfl⟩ := h
  have := isWikiSegment_ne_nil hseg
  intro hcontra
  rcases List.append_eq_nil.mp hcontra with ⟨_, h2⟩
  exact this h2

/-- Matching the full WikiWord regex: a non-empty list of groups. -/
theorem wikiWordRE_rmatch_iff (x : List Char) :
    wikiWordRE.rmatch x = true ↔
      ∃ parts, parts ≠ [] ∧ (∀ p ∈ parts, IsWikiGroup p) ∧ x = parts.flatten := by
  unfold wikiWordRE
  rw [rePlus_rmatch_iff]
  constructor
  · rintro ⟨t, S, rfl, ht, hS⟩
    refine ⟨t :: S, by simp, ?_, by simp⟩
    intro p hp
    rcases List.mem_cons.mp hp with rfl | hp2
    · exact (wikiWordGroup_rmatch_iff p).mp ht
    · exact (wikiWordGroup_rmatch_iff p).mp (hS p hp2).2
  · rintro ⟨parts, hne, hparts, rfl⟩
    obtain ⟨p, ps, rfl⟩ := List.exists_cons_of_ne_nil hne
    refine ⟨p, ps, by simp, (wikiWordGroup_rmatch_iff p).mpr (hparts p (by simp)), ?_⟩
    intro s hs
    have hg := hparts s (by simp [hs])
    exact ⟨isWikiGroup_ne_nil hg, (wikiWordGroup_rmatch_iff s).mpr hg⟩

/-- Segments are closed under concatenation. -/
theorem isWikiSegment_append {a b : List Char}
    (ha : IsWikiSegment a) (hb : IsWikiSegment b) : IsWikiSegment (a ++ b) := by
  obtain ⟨r1, hl1, hr1, rfl⟩ := ha
  obtain ⟨r2, hl2, hr2, rfl⟩ := hb
  refine ⟨r1 ++ r2, ?_, ?_, by simp⟩
  · rw [List.length_append]
    omega
  · intro r hr
    rcases List.mem_append.mp hr with h | h
    · exact hr1 r h
    · exact hr2 r h

/-- Slash-joining after merging the first two chunks. -/
theorem joinSegs_append_head (a b : List Char) (l : List (List Char)) :
    joinSegs ((a ++ b) :: l) = a ++ joinSegs (b :: l) := by
  cases l <;> simp [joinSegs, List.append_assoc]

/-- Slash-joining a cons with a non-empty tail. -/
theorem joinSegs_cons_ne (s : List Char) (rest : List (List Char)) (h : rest ≠ []) :
    joinSegs (s :: rest) = s ++ '/' :: joinSegs rest := by
  cases rest with
  | nil => exact absurd rfl h
  | cons t l => rfl

/-- Forward bridge: the concatenation of a non-empty list of groups has
the claimed WikiWord shape. -/
theorem flatten_groups_shape :
    ∀ parts : List (List Char), parts ≠ [] → (∀ p ∈ parts, IsWikiGroup p) →
      IsWikiWordShape parts.flatten := by
  intro parts
  induction parts with
  | nil => intro h; exact absurd rfl h
  | cons p ps ih =>
    intro _ hall
    obtain ⟨lead, seg, hlead, hseg, rfl⟩ := hall p (by simp)
    by_cases hps : ps = []
    · subst hps
      exact ⟨lead, [seg], hlead, by simp, by simpa using hseg, by simp [joinSegs]⟩
    · obtain ⟨lead2, segs2, hlead2, hne2, hsegs2, hflat⟩ :=
        ih hps (fun q hq => hall q (by simp [hq]))
      obtain ⟨s0, srest, rfl⟩ := List.exists_cons_of_ne_nil hne2
      rcases hlead2 with rfl | rfl
      · refine ⟨lead, (seg ++ s0) :: srest, hlead, by simp, ?_, ?_⟩
        · intro s hs
          rcases List.mem_cons.mp hs with rfl | hs2
          · exact isWikiSegment_append hseg (hsegs2 s0 (by simp))
          · exact hsegs2 s (by simp [hs2])
        · rw [List.flatten_cons, hflat, joinSegs_append_head]
          simp [List.append_assoc]
      · refine ⟨lead, seg :: s0 :: srest, hlead, by simp, ?_, ?_⟩
        · intro s hs
          rcases List.mem_cons.mp hs with rfl | hs2
          · exact hseg
          · exact hsegs2 s hs2
        · rw [List.flatten_cons, hflat, joinSegs_cons_ne seg (s0 :: srest) (by simp)]
          simp [List.append_assoc]

/-- Backward bridge: any token of the claimed WikiWord shape is a
concatenation of a non-empty list of groups. -/
theorem shape_to_groups :
    ∀ segs : List (List Char), segs ≠ [] → (∀ s ∈ segs, IsWikiSegment s) →
      ∀ lead, (lead = [] ∨ lead = ['/']) →
      ∃ parts, parts ≠ [] ∧ (∀ p ∈ parts, IsWikiGroup p) ∧
        parts.flatten = lead ++ joinSegs segs := by
  intro segs
  induction segs with
  | nil => intro h; exact absurd rfl h
  | cons s rest ih =>
    intro _ hall lead hlead
    by_cases hrest : rest = []
    · subst hrest
      refine ⟨[lead ++ s], by simp, ?_, by simp [joinSegs]⟩
      intro p hp
      rw [List.mem_singleton.mp hp]
      exact ⟨lead, s, hlead, hall s (by simp), rfl⟩
    · obtain ⟨parts2, hne2, hparts2, hflat2⟩ :=
        ih hrest (fun q hq => hall q (by simp [hq])) ['/'] (Or.inr rfl)
      refine ⟨(lead ++ s) :: parts2, by simp, ?_, ?_⟩
      · intro p hp
        rcases List.mem_cons.mp hp with rfl | hp2
        · exact ⟨lead, s, hlead, hall s (by simp), rfl⟩
        · exact hparts2 p hp2
      · rw [List.flatten_cons, hflat2, joinSegs_cons_ne s rest hrest]
        simp [List.append_assoc]

/-- C8: the WikiWord grammar regex
`(/?[A-Z][a-z0-9]+([A-Z][a-z0-9]+)+)+`, required to consume the whole
token, rejects `WikiW`, `W1W`, `Wiki-Words` and `/WhatAbout/InPaths/`,
accepts `WhatAbout/InPaths`, and in general accepts exactly the tokens
made of slash-separated path segments (with an optional leading slash),
each segment a concatenation of at least two capitalized runs, one
capital letter followed by one or more lowercase letters or digits; such
a token never ends in a slash. -/
theorem claim_C8_wikiword_grammar :
    wikiWordAccepts "WikiW" = false ∧
      wikiWordAccepts "W1W" = false ∧
      wikiWordAccepts "Wiki-Words" = false ∧
      wikiWordAccepts "/WhatAbout/InPaths/" = false ∧
      wikiWordAccepts "WhatAbout/InPaths" = true ∧
      ∀ x : List Char, wikiWordRE.rmatch x = true ↔ IsWikiWordShape x := by
  refine ⟨by decide, by decide, by decide, by decide, by decide, ?_⟩
  intro x
  rw [wikiWordRE_rmatch_iff]
  constructor
  · rintro ⟨parts, hne, hparts, rfl⟩
    exact flatten_groups_shape parts hne hparts
  · rintro ⟨lead, segs, hlead, hne, hsegs, rfl⟩
    obtain ⟨parts, hne2, hparts, hflat⟩ := shape_to_groups segs hne hsegs lead hlead
    exact ⟨parts, hne2, hparts, hflat.symm⟩

/-- Witness for C8: instantiating the characterization at the accepted
token `WhatAbout/InPaths`. -/
theorem claim_C8_wikiword_grammar_witness :
    IsWikiWordShape "WhatAbout/InPaths".toList :=
  (claim_C8_wikiword_grammar.2.2.2.2.2 "WhatAbout/InPaths".toList).mp (by decide)

/-- Witness for C1 (amended): instantiating the characterization at a
concrete one-row table with a row-level `th` class. -/
theorem claim_C1_feasibility_characterization_witness :
    rendersAsGFM ⟨[⟨none, some "th", none, none, [⟨none, none⟩]⟩]⟩ :=
  (claim_C1_feasibility_characterization
    ⟨[⟨none, some "th", none, none, [⟨none, none⟩]⟩]⟩).mp (by decide)

end WikiMigration
